import Mathlib

/-!
# Verification of the wall-street-wolf trading engine core

A shallow embedding of the concurrent state/scheduling engine of the
`wall-street-wolf` trading bot, together with theorems settling the claims of
its specification.

Modelling conventions:
* `num_decimal::Num` (arbitrary-precision rational) quantities and prices are
  modelled as `ℚ`.
* `Instant` timestamps are modelled as `ℕ`; `chrono` UTC timestamps and
  durations in the scheduler are modelled as `ℤ` (a signed timeline), with the
  tick period (`std::time::Duration`, non-negative) as `ℕ`.
* Panics (`unwrap` on a negative-duration conversion, `assert!`) are modelled
  by an `Except` error result.
* `f64` indicator values (RSI, Bollinger bands) are modelled as `ℚ` inputs:
  the indicator math itself is an external pure computation, out of scope.
* The per-key-atomic `DashMap` ledger is modelled as an association list with
  the watcher's per-event mutation applied as an explicit state-passing step.
-/

namespace WallStreetWolf

/-- `Position` (src/main.rs): the ledger's belief about one symbol. -/
structure Position where
  owned : ℚ
  buy_in_price : ℚ
  timestamp : ℕ
  order_in_progress : Bool
deriving Repr, DecidableEq

/-- One order-update event from the broker feed
(`OrderUpdate` as consumed in src/backend/watcher.rs): the filled quantity,
the optional average fill price, and whether `status.is_terminal()`. -/
structure OrderEvent where
  filled_quantity : ℚ
  average_fill_price : Option ℚ
  terminal : Bool
deriving Repr, DecidableEq

/-- The watcher's per-event ledger mutation
(src/backend/watcher.rs lines 23-48): `entry(symbol).and_modify(...).or_insert_with(...)`.
`entry` is the current ledger entry for the event's symbol (`none` if absent);
`now` is `Instant::now()` at application time. -/
def applyEvent (entry : Option Position) (e : OrderEvent) (now : ℕ) : Position :=
  match entry with
  | some pos =>
      -- and_modify branch
      let pos := { pos with order_in_progress := e.terminal }
      if e.terminal then
        { pos with
          owned := pos.owned + e.filled_quantity
          buy_in_price := e.average_fill_price.getD 0
          timestamp := now }
      else
        pos
  | none =>
      -- or_insert_with branch
      { owned := e.filled_quantity
        buy_in_price := e.average_fill_price.getD 0
        timestamp := now
        order_in_progress := e.terminal }

/-- Applying a sequence of watcher events (each paired with its arrival
instant) to one symbol's ledger entry, in feed-delivery order. -/
def applyEvents (entry : Option Position) (l : List (OrderEvent × ℕ)) : Option Position :=
  l.foldl (fun acc p => some (applyEvent acc p.1 p.2)) entry

/-- Sum of the `filled_quantity` of exactly the terminal events of a sequence. -/
def sumTerminalQty (l : List (OrderEvent × ℕ)) : ℚ :=
  (((l.map Prod.fst).filter (fun e => e.terminal)).map (fun e => e.filled_quantity)).sum

/-- `Symbol` (src/main.rs lines 31-35): a tagged union of stock and crypto
tickers. Tickers (`String`) are modelled as `List Char`. -/
inductive Symbol where
  | Stock (ticker : List Char)
  | Crypto (ticker : List Char)
deriving Repr, DecidableEq

/-- `Symbol::ticker` (src/main.rs lines 37-44). -/
def Symbol.ticker : Symbol → List Char
  | .Stock t => t
  | .Crypto t => t

/-- The discriminant order of the `Symbol` enum's variants (`Stock` is
declared before `Crypto`), which Rust's derived `Ord` compares first. -/
def Symbol.tag : Symbol → ℕ
  | .Stock _ => 0
  | .Crypto _ => 1

/-- `KNOWN_CRYPTOS` (src/main.rs lines 27-29). -/
def KNOWN_CRYPTOS : List (List Char) :=
  ["BTC".data, "ETH".data, "PAXG".data, "BCH".data, "AAVE".data,
   "LTC".data, "LINK".data, "UNI".data, "SHIB".data, "USDT".data]

/-- `needle` is a prefix of `hay` (auxiliary for `strContains`). -/
def startsWith : List Char → List Char → Bool
  | _, [] => true
  | [], _ :: _ => false
  | a :: as, b :: bs => decide (a = b) && startsWith as bs

/-- Rust's `str::contains(needle)`: `needle` occurs as a contiguous substring
of `hay`. -/
def strContains : List Char → List Char → Bool
  | [], needle => needle.isEmpty
  | hay@(_ :: t), needle => startsWith hay needle || strContains t needle

/-- `value.retain(|ch| ch.is_alphabetic())` (src/main.rs line 67): keep only
alphabetic characters. The source's tickers are ASCII, so `Char.isAlpha`
(ASCII letters) models `char::is_alphabetic` faithfully on all inputs used. -/
def normalizeTicker (s : List Char) : List Char :=
  s.filter Char.isAlpha

/-- `impl From<S> for Symbol` (src/main.rs lines 61-75): normalize the raw
ticker, then classify as `Crypto` when the normalized ticker CONTAINS any
known crypto ticker as a substring, else `Stock`. -/
def symbolFrom (raw : List Char) : Symbol :=
  let value := normalizeTicker raw
  if KNOWN_CRYPTOS.any (fun known => strContains value known) then
    Symbol.Crypto value
  else
    Symbol.Stock value

/-- Modelled from the spec's words, for comparison with `symbolFrom` only
(the spec claims a MEMBERSHIP test of the normalized ticker in the known
crypto-ticker set, where the source tests substring containment). -/
def symbolFromSpec (raw : List Char) : Symbol :=
  let value := normalizeTicker raw
  if KNOWN_CRYPTOS.contains value then Symbol.Crypto value
  else Symbol.Stock value

/-- Lexicographic order on tickers (Rust's derived `Ord` on `String`,
byte-lexicographic; for the ASCII tickers in play, `Char` order agrees). -/
def lexLe : List Char → List Char → Bool
  | [], _ => true
  | _ :: _, [] => false
  | a :: as, b :: bs => if a < b then true else if a = b then lexLe as bs else false

/-- Rust's derived `Ord` on the `Symbol` enum (src/main.rs line 31):
variant discriminant first (`Stock` before `Crypto`), ticker second. -/
def symbolLe (a b : Symbol) : Bool :=
  if a.tag < b.tag then true
  else if a.tag = b.tag then lexLe a.ticker b.ticker
  else false

/-- Insertion step of `sortSymbols`. -/
def insertSym (a : Symbol) : List Symbol → List Symbol
  | [] => [a]
  | b :: l => if symbolLe a b then a :: b :: l else b :: insertSym a l

/-- `symbols.sort()` (src/main.rs line 252): sort by the derived `Ord` of
`Symbol`. `symbolLe` is a total antisymmetric order, so every correct sort
(including Rust's stable sort) produces this output. -/
def sortSymbols (l : List Symbol) : List Symbol :=
  l.foldr insertSym []

/-- The shared ledger `AccountState.positions` (src/main.rs lines 134-137),
a `DashMap<Symbol, Position>` modelled as an association list with at most
one entry per symbol. -/
abbrev Ledger := List (Symbol × Position)

/-- `positions.get(symbol)`: the entry for a symbol, if present. -/
def Ledger.get (led : Ledger) (s : Symbol) : Option Position :=
  (List.find? (fun e => e.1 = s) led).map Prod.snd

/-- The watch-list preparation of `watch_all` (src/main.rs lines 241-252):
convert raw tickers to `Symbol`s, drop symbols whose ledger entry has
`order_in_progress` set, and sort the remainder by the derived `Symbol`
order. -/
def prepareSymbols (led : Ledger) (raws : List (List Char)) : List Symbol :=
  sortSymbols
    ((raws.map symbolFrom).filter (fun s =>
      match led.get s with
      | none => true
      | some pos => !pos.order_in_progress))

/-- Order side (`apca::api::v2::order::Side`). -/
inductive Side where
  | Buy
  | Sell
deriving Repr, DecidableEq

/-- A submitted order: `backend.submit_order(symbol, side, Amount::quantity(q))`. -/
structure Order where
  symbol : Symbol
  side : Side
  quantity : ℚ
deriving Repr, DecidableEq

/-- The indicator values `watch_all` derives from one symbol's bar history
(src/main.rs lines 268-269): Bollinger band bounds and RSI. The indicator
math (`ta` crate) is an external pure computation, out of scope; its `f64`
outputs are modelled as `ℚ`. -/
structure Indicators where
  bbLower : ℚ
  bbAverage : ℚ
  bbUpper : ℚ
  rsi : ℚ
deriving Repr, DecidableEq

/-- The configuration `watch_all` receives (src/main.rs lines 225-232):
`rsi_range`, `hold_limit` and `profit_limit` (both `Range`s are half-open). -/
structure StrategyParams where
  rsiLow : ℚ
  rsiHigh : ℚ
  holdLimit : ℕ
  profitLo : ℚ
  profitHi : ℚ
deriving Repr, DecidableEq

/-- The `profit_limit_reached` computation (src/main.rs lines 290-297):
`position.filter(|pos| !pos.buy_in_price.is_zero()).map_or(false, |pos|
!profit_limit.contains(&(current_price / pos.buy_in_price)))`.
`Range::contains` is `lo <= x && x < hi`. -/
def profitLimitReached (position : Option Position) (current_price lo hi : ℚ) : Bool :=
  ((position.filter (fun pos => !decide (pos.buy_in_price = 0))).map (fun pos =>
      let profit := current_price / pos.buy_in_price
      !decide (lo ≤ profit ∧ profit < hi))).getD false

/-- The per-symbol body of `watch_all`'s decision loop
(src/main.rs lines 261-312). `ind s = none` models `bars.is_empty()`
(the `continue`); `price` models `current_prices[&symbol]`; `now` is the
`Instant::now()` taken before the loop. Returns the order submitted for the
symbol, if any. -/
def decideSymbol (led : Ledger) (ind : Symbol → Option Indicators)
    (price : Symbol → ℚ) (now : ℕ) (p : StrategyParams) (s : Symbol) : Option Order :=
  match ind s with
  | none => none
  | some d =>
    let current_price := price s
    let position := led.get s
    let all_owned := (position.map Position.owned).getD 0
    let held_too_long :=
      (position.map (fun pos => decide (now - pos.timestamp > p.holdLimit))).getD false
    let profit_reached := profitLimitReached position current_price p.profitLo p.profitHi
    if all_owned = 0 ∧ d.rsi < p.rsiLow ∧ current_price < d.bbLower then
      some ⟨s, Side.Buy, 1⟩
    else if ¬all_owned = 0 ∧
        (held_too_long = true ∨ profit_reached = true ∨
          (d.rsi > p.rsiHigh ∧ current_price > d.bbUpper)) then
      some ⟨s, Side.Sell, all_owned⟩
    else
      none

/-- One strategy cycle, `watch_all` (src/main.rs lines 225-313): prepare the
watch list, fetch indicator data and prices (modelled as the given functions),
and run the decision loop. `watch_all` takes the ledger by shared reference
and never writes it, so the embedding passes the ledger through and returns it
with the submitted orders. The source iterates the decision loop over a
`HashMap` of fetched bars whose iteration order is unspecified; the embedding
iterates the prepared symbol list, which determinizes that order. -/
def watchAll (led : Ledger) (raws : List (List Char)) (ind : Symbol → Option Indicators)
    (price : Symbol → ℚ) (now : ℕ) (p : StrategyParams) : List Order × Ledger :=
  let symbols := prepareSymbols led raws
  (symbols.filterMap (decideSymbol led ind price now p), led)

/-- `Backend::sell_all_positions` (src/backend/mod.rs lines 60-77): for every
ledger entry whose symbol passes the filter, submit a sell order for the full
`owned` quantity. On `AboutToClose` the main loop calls this with the
always-true filter (src/main.rs line 211). -/
def sellAllPositions (led : Ledger) (filter : Symbol → Bool) : List Order :=
  if led.isEmpty then []
  else (led.filter (fun e => filter e.1)).map (fun e => ⟨e.1, Side.Sell, e.2.owned⟩)

/-- `Clock` (apca `clock::Clock`, as used in src/wait.rs): whether the market
is open and the next session boundaries. UTC timestamps are modelled as `ℤ`
(seconds on a signed timeline). `open` is a Lean keyword, hence `isOpen`. -/
structure Clock where
  isOpen : Bool
  next_open : ℤ
  next_close : ℤ
deriving Repr, DecidableEq

/-- `MarketStatus` (src/wait.rs lines 9-12). -/
inductive MarketStatus where
  | Open
  | AboutToClose
deriving Repr, DecidableEq

/-- `Ticker` (src/wait.rs lines 14-18): the tick interval's period
(a `std::time::Duration`, hence `ℕ` seconds), the last fetched clock and the
locally maintained `open_and_ready` flag. -/
structure TickerState where
  period : ℕ
  clock : Clock
  open_and_ready : Bool
deriving Repr, DecidableEq

/-- The ways one `wait_for_open_or_tick` call can panic instead of returning:
`time_left.to_std().unwrap()` on a negative remaining time (src/wait.rs
lines 45-50), the `assert!(!self.clock.open)` after the fresh clock fetch
(line 87), and the final sleep's `to_std().unwrap()` when the fresh clock's
`next_open` is already past (lines 98-105). The inner wait-for-close sleep
(lines 71-81) cannot panic: its guard `now < next_close` makes the converted
duration positive. -/
inductive Fatal where
  | timeLeftNegative
  | marketStillOpen
  | sleepNegative
deriving Repr, DecidableEq

/-- The environment of one `wait_for_open_or_tick` call: `now` is
`Utc::now()` sampled at entry (line 38), `fresh` the clock the closed branch
fetches from the broker (line 84), and `now2` the `Utc::now()` sampled for
the closed branch's final sleep (line 101). -/
structure StepInput where
  now : ℤ
  fresh : Clock
  now2 : ℤ
deriving Repr, DecidableEq

/-- `Ticker::new` (src/wait.rs lines 21-35): `open_and_ready = clock.open`. -/
def tickerNew (period : ℕ) (clock : Clock) : TickerState :=
  ⟨period, clock, clock.isOpen⟩

/-- One `wait_for_open_or_tick` call (src/wait.rs lines 37-112) as a step
function: sleeps have no state effect and are dropped; panics are `.error`.
Open branch: compute `time_left = next_close - now` (panic if negative),
decide `about_to_close = time_left <= period * 2`, tick, then either flip
`open_and_ready` off and return `AboutToClose`, or return `Open`.
Closed branch: (sleep out the rest of today's session if still inside it,)
fetch the fresh clock into the state, `assert!(!clock.open)`, sleep until its
`next_open` (panic if already past), set `open_and_ready`, return `Open`. -/
def step (s : TickerState) (i : StepInput) : Except Fatal (MarketStatus × TickerState) :=
  if s.open_and_ready then
    let time_left := s.clock.next_close - i.now
    if time_left < 0 then
      .error .timeLeftNegative
    else
      let about_to_close := time_left ≤ s.period * 2
      -- self.interval.tick().await (missed ticks coalesced): no state effect
      if about_to_close then
        .ok (MarketStatus.AboutToClose, { s with open_and_ready := false })
      else
        .ok (MarketStatus.Open, s)
  else
    -- the wait-for-close sleep (guarded by `now < next_close`): no state effect
    let s := { s with clock := i.fresh }
    if s.clock.isOpen then
      .error .marketStillOpen
    else if s.clock.next_open - i.now2 < 0 then
      .error .sleepNegative
    else
      .ok (MarketStatus.Open, { s with open_and_ready := true })

/-- The result of the `(n+1)`-st scheduling decision of a run that starts
from `s0` and receives its call environments from `inp`: the returned
`MarketStatus` and the `Ticker` state after the call, or the first panic. -/
def stepTrace (s0 : TickerState) (inp : ℕ → StepInput) :
    ℕ → Except Fatal (MarketStatus × TickerState)
  | 0 => step s0 (inp 0)
  | n + 1 =>
    match stepTrace s0 inp n with
    | .error e => .error e
    | .ok (_, s) => step s (inp (n + 1))

/-! ## Theorems -/

/-- C1: the claim says every order-update applied to an existing entry sets
`order_in_progress = !is_terminal`. The code (src/backend/watcher.rs lines
28 and 47) sets `order_in_progress = is_terminal` — the negation is missing,
so after a terminal fill the flag reads `true` (and the strategy loop's
"filter out symbols with outstanding orders" check at src/main.rs lines
246-249 then excludes the symbol forever), while a non-terminal update
clears it. This theorem records the code's actual behaviour on both the
`and_modify` and the `or_insert_with` path. -/
theorem c1_watcher_flag_equals_terminal (pos : Position) (e : OrderEvent) (now : ℕ) :
    (applyEvent (some pos) e now).order_in_progress = e.terminal ∧
    (applyEvent none e now).order_in_progress = e.terminal := by
  constructor <;> cases h : e.terminal <;> simp [applyEvent, h]

/-- Helper for C2: applying events to an existing entry adds exactly the
terminal events' filled quantities to `owned`. -/
theorem applyEvents_some_owned (l : List (OrderEvent × ℕ)) (pos : Position) :
    ∃ p, applyEvents (some pos) l = some p ∧ p.owned = pos.owned + sumTerminalQty l := by
  induction l generalizing pos with
  | nil => exact ⟨pos, rfl, by simp [sumTerminalQty]⟩
  | cons hd tl ih =>
    obtain ⟨p, hp, hw⟩ := ih (applyEvent (some pos) hd.1 hd.2)
    refine ⟨p, by simpa [applyEvents] using hp, ?_⟩
    rw [hw]
    cases h : hd.1.terminal
    · simp [applyEvent, h, sumTerminalQty]
    · simp [applyEvent, h, sumTerminalQty]
      ring

/-- C2 (amended): for a fresh (absent) entry, the watcher's `or_insert_with`
records the FIRST event's `filled_quantity` whether or not that event is
terminal; afterwards only terminal events add to `owned`. So the final
`owned` is the first event's filled quantity plus the sum of the terminal
filled quantities of the remaining events. -/
theorem c2_fresh_entry_owned_amended (e : OrderEvent) (t : ℕ) (l : List (OrderEvent × ℕ)) :
    ∃ p, applyEvents none ((e, t) :: l) = some p ∧
      p.owned = e.filled_quantity + sumTerminalQty l := by
  obtain ⟨p, hp, hw⟩ := applyEvents_some_owned l (applyEvent none e t)
  exact ⟨p, by simpa [applyEvents] using hp, by rw [hw]; simp [applyEvent]⟩

/-- C2 counterexample: a single NON-terminal event with filled quantity 5
applied to a fresh entry leaves `owned = 5`, while the sum of terminal-event
quantities is 0 — the claimed equality fails. -/
theorem c2_counterexample :
    (applyEvents none [(⟨5, none, false⟩, 0)]).map Position.owned = some 5 ∧
    sumTerminalQty [(⟨5, none, false⟩, 0)] = 0 ∧
    (applyEvents none [(⟨5, none, false⟩, 0)]).map Position.owned ≠
      some (sumTerminalQty [(⟨5, none, false⟩, 0)]) := by
  refine ⟨rfl, rfl, by decide⟩

/-- C10: a position whose `buy_in_price` is zero is dropped by the
`.filter(|pos| !pos.buy_in_price.is_zero())` guard (src/main.rs lines
290-297), so the profit-ratio exit test is `false` and the ratio is never
consulted, for every current price and profit band; and such positions do
arise, because the watcher's insert path uses `average_fill_price`'s default
(zero) when the event carries no price (src/backend/watcher.rs lines 40-48). -/
theorem c10_zero_cost_basis_safe (pos : Position) (current_price lo hi : ℚ)
    (e : OrderEvent) (now : ℕ)
    (hzero : pos.buy_in_price = 0) (hnone : e.average_fill_price = none) :
    profitLimitReached (some pos) current_price lo hi = false ∧
    (applyEvent none e now).buy_in_price = 0 := by
  constructor
  · simp [profitLimitReached, Option.filter, hzero]
  · simp [applyEvent, hnone]

/-- C10 witness: a concrete zero-cost-basis position and a concrete
price-less event. -/
theorem c10_zero_cost_basis_witness :
    profitLimitReached (some ⟨1, 0, 0, false⟩) 7 (9/10) (3/2) = false ∧
    (applyEvent none ⟨2, none, false⟩ 3).buy_in_price = 0 :=
  c10_zero_cost_basis_safe ⟨1, 0, 0, false⟩ 7 (9/10) (3/2) ⟨2, none, false⟩ 3 rfl rfl

/-- The always-true filter `|_| true` that the `AboutToClose` handler passes
to `sell_all_positions` (src/main.rs line 211). -/
def allSymbols : Symbol → Bool := fun _ => true

/-- A ledger with three non-zero positions and one zero-quantity position
(the liquidation scenario of the spec's §8). -/
def c3Ledger : Ledger :=
  [(Symbol.Stock "AAPL".data, ⟨3, 100, 0, false⟩),
   (Symbol.Stock "MSFT".data, ⟨1, 200, 0, false⟩),
   (Symbol.Stock "NVDA".data, ⟨0, 50, 0, false⟩),
   (Symbol.Crypto "BTC".data, ⟨2, 30000, 0, false⟩)]

/-- C3 counterexample: `sell_all_positions` has no zero-quantity check, so on
the three-non-zero/one-zero ledger the `AboutToClose` filter (`|_| true`)
submits FOUR sell orders, one of them for quantity 0 — not the claimed three. -/
theorem c3_counterexample :
    (sellAllPositions c3Ledger allSymbols).length = 4 ∧
    (sellAllPositions c3Ledger allSymbols).length ≠ 3 ∧
    (⟨Symbol.Stock "NVDA".data, Side.Sell, 0⟩ : Order) ∈
      sellAllPositions c3Ledger allSymbols := by
  refine ⟨rfl, by decide, by decide⟩

/-- C3 (amended): `AboutToClose` handling submits one sell order (quantity =
`owned`) for every ledger entry that passes the filter, INCLUDING
zero-quantity entries; on a ledger with three non-zero positions and one
zero-quantity position it submits exactly four sell orders. -/
theorem c3_sell_all_filtered_amended (led : Ledger) (f : Symbol → Bool) :
    sellAllPositions led f =
      (led.filter (fun e => f e.1)).map (fun e => ⟨e.1, Side.Sell, e.2.owned⟩) ∧
    (sellAllPositions c3Ledger allSymbols).length = 4 := by
  refine ⟨?_, rfl⟩
  cases led with
  | nil => simp [sellAllPositions]
  | cons hd tl => simp [sellAllPositions]

/-- Membership in `insertSym` is membership in the inserted element or the
list. -/
theorem mem_insertSym {a x : Symbol} {l : List Symbol} :
    a ∈ insertSym x l ↔ a = x ∨ a ∈ l := by
  induction l with
  | nil => simp [insertSym]
  | cons b t ih =>
    simp only [insertSym]
    split
    · simp
    · simp only [List.mem_cons, ih]
      tauto

/-- `sortSymbols` permutes its input: membership is unchanged. -/
theorem mem_sortSymbols {a : Symbol} {l : List Symbol} :
    a ∈ sortSymbols l ↔ a ∈ l := by
  induction l with
  | nil => simp [sortSymbols]
  | cons b t ih =>
    show a ∈ insertSym b (sortSymbols t) ↔ _
    rw [mem_insertSym, ih]
    simp

/-- An order `decideSymbol` emits is for the symbol it was asked about. -/
theorem decideSymbol_symbol {led : Ledger} {ind : Symbol → Option Indicators}
    {price : Symbol → ℚ} {now : ℕ} {p : StrategyParams} {s : Symbol} {o : Order}
    (h : decideSymbol led ind price now p s = some o) : o.symbol = s := by
  cases hi : ind s
  · simp [decideSymbol, hi] at h
  · simp only [decideSymbol, hi] at h
    split_ifs at h
    all_goals first
      | rw [← Option.some.inj h]
      | exact Option.noConfusion h

/-- C4 (amended): the strategy cycle never writes the ledger at all — there
is no `mark_order_submitted` in the code; `watch_all` takes the ledger by
shared reference and only reads it — and it only submits orders for symbols
whose entry is NOT marked `order_in_progress` (the pre-fetch filter).
The flag is only ever written by the watcher's event application. -/
theorem c4_cycle_never_marks_amended (led : Ledger) (raws : List (List Char))
    (ind : Symbol → Option Indicators) (price : Symbol → ℚ) (now : ℕ)
    (p : StrategyParams) :
    (watchAll led raws ind price now p).2 = led ∧
    ∀ o ∈ (watchAll led raws ind price now p).1, ∀ q,
      led.get o.symbol = some q → q.order_in_progress = false := by
  refine ⟨rfl, ?_⟩
  intro o ho q hq
  simp only [watchAll, List.mem_filterMap] at ho
  obtain ⟨s, hs, hdec⟩ := ho
  have hsym := decideSymbol_symbol hdec
  rw [hsym] at hq
  simp only [prepareSymbols, mem_sortSymbols, List.mem_filter] at hs
  obtain ⟨-, hpred⟩ := hs
  rw [hq] at hpred
  simpa using hpred

/-- Concrete fixtures for the C4 counterexample: a ledger holding 2 shares of
AAPL bought at 10, indicators that do not trigger, and a current price of 20,
which is outside the profit band [9/10, 3/2) and forces a sell. -/
def c4Ledger : Ledger := [(Symbol.Stock "AAPL".data, ⟨2, 10, 0, false⟩)]

def c4Ind : Symbol → Option Indicators := fun _ => some ⟨5, 6, 7, 50⟩

def c4Price : Symbol → ℚ := fun _ => 20

def c4Params : StrategyParams := ⟨30, 70, 1000, 9/10, 3/2⟩

/-- C4 counterexample: this strategy cycle submits a sell order for AAPL, yet
the ledger after the cycle is the input ledger unchanged and AAPL's
`order_in_progress` is still `false` — no `mark_order_submitted` happened
before (or after) dispatching the order, contradicting the claim. -/
theorem c4_counterexample :
    (watchAll c4Ledger ["AAPL".data] c4Ind c4Price 0 c4Params).1 =
      [⟨Symbol.Stock "AAPL".data, Side.Sell, 2⟩] ∧
    (watchAll c4Ledger ["AAPL".data] c4Ind c4Price 0 c4Params).2 = c4Ledger ∧
    ((watchAll c4Ledger ["AAPL".data] c4Ind c4Price 0 c4Params).2.get
        (Symbol.Stock "AAPL".data)).map Position.order_in_progress = some false := by
  have hprep : prepareSymbols c4Ledger ["AAPL".data] = [Symbol.Stock "AAPL".data] := by
    decide
  have hdec : decideSymbol c4Ledger c4Ind c4Price 0 c4Params (Symbol.Stock "AAPL".data) =
      some ⟨Symbol.Stock "AAPL".data, Side.Sell, 2⟩ := by
    norm_num [decideSymbol, c4Ind, c4Price, c4Params, c4Ledger, Ledger.get,
      profitLimitReached, Option.filter, List.find?]
  refine ⟨?_, rfl, by decide⟩
  simp [watchAll, hprep, hdec]

/-- `startsWith hay needle` holds exactly when `needle` is a literal prefix. -/
theorem startsWith_iff (hay needle : List Char) :
    startsWith hay needle = true ↔ ∃ q, hay = needle ++ q := by
  induction hay generalizing needle with
  | nil =>
    cases needle with
    | nil => simp [startsWith]
    | cons b bs => simp [startsWith]
  | cons a as ih =>
    cases needle with
    | nil => simp [startsWith]
    | cons b bs =>
      simp only [startsWith, Bool.and_eq_true, decide_eq_true_eq, ih, List.cons_append,
        List.cons.injEq]
      constructor
      · rintro ⟨rfl, q, rfl⟩
        exact ⟨q, rfl, rfl⟩
      · rintro ⟨q, rfl, rfl⟩
        exact ⟨rfl, q, rfl⟩

/-- `strContains hay needle` holds exactly when `needle` occurs contiguously
inside `hay`, i.e. `hay = p ++ needle ++ q` for some `p`, `q`. -/
theorem strContains_iff (hay needle : List Char) :
    strContains hay needle = true ↔ ∃ p q, hay = p ++ needle ++ q := by
  induction hay with
  | nil =>
    simp only [strContains, List.isEmpty_iff]
    constructor
    · rintro rfl
      exact ⟨[], [], rfl⟩
    · rintro ⟨p, q, hpq⟩
      exact (List.append_eq_nil.mp (List.append_eq_nil.mp hpq.symm).1).2
  | cons a t ih =>
    simp only [strContains, Bool.or_eq_true, startsWith_iff, ih]
    constructor
    · rintro (⟨q, hq⟩ | ⟨p, q, hpq⟩)
      · exact ⟨[], q, by simpa using hq⟩
      · exact ⟨a :: p, q, by simp [hpq]⟩
    · rintro ⟨p, q, hpq⟩
      cases p with
      | nil =>
        exact Or.inl ⟨q, by simpa using hpq⟩
      | cons c p' =>
        simp only [List.cons_append] at hpq
        injection hpq with h1 h2
        exact Or.inr ⟨p', q, h2⟩

/-- C8 (amended): classification strips non-alphabetic characters and then
tests whether the normalized ticker CONTAINS any known crypto ticker as a
substring (not set membership): the constructed `Symbol` is `Crypto` of the
normalized ticker exactly when such a substring occurrence exists, and
`Stock` of the normalized ticker otherwise. (The classification is baked
into the constructor and cannot change afterwards.) -/
theorem c8_substring_classification_amended (raw : List Char) :
    (symbolFrom raw = Symbol.Crypto (normalizeTicker raw) ↔
      ∃ k ∈ KNOWN_CRYPTOS, ∃ p q, normalizeTicker raw = p ++ k ++ q) ∧
    (symbolFrom raw = Symbol.Crypto (normalizeTicker raw) ∨
      symbolFrom raw = Symbol.Stock (normalizeTicker raw)) := by
  by_cases h : KNOWN_CRYPTOS.any (fun known => strContains (normalizeTicker raw) known) = true
  · have hc : symbolFrom raw = Symbol.Crypto (normalizeTicker raw) := by
      simp only [symbolFrom, h, if_true]
    rw [List.any_eq_true] at h
    simp only [strContains_iff] at h
    exact ⟨⟨fun _ => h, fun _ => hc⟩, Or.inl hc⟩
  · have hfalse : KNOWN_CRYPTOS.any (fun known => strContains (normalizeTicker raw) known) =
        false := by
      simpa using h
    have hs : symbolFrom raw = Symbol.Stock (normalizeTicker raw) := by
      simp [symbolFrom, hfalse]
    rw [List.any_eq_true] at h
    simp only [strContains_iff] at h
    exact ⟨⟨fun hcr => absurd hcr (by simp [hs]), fun hex => absurd hex h⟩, Or.inr hs⟩

/-- C8 counterexample: the raw ticker `"BTC/USD"` normalizes to `"BTCUSD"`,
which is NOT a member of the known crypto-ticker set — the spec's membership
rule (`symbolFromSpec`) classifies it `Stock` — yet the code classifies it
`Crypto` because `"BTCUSD"` contains `"BTC"` as a substring. -/
theorem c8_counterexample :
    symbolFrom "BTC/USD".data = Symbol.Crypto "BTCUSD".data ∧
    symbolFromSpec "BTC/USD".data = Symbol.Stock "BTCUSD".data ∧
    "BTCUSD".data ∉ KNOWN_CRYPTOS ∧
    symbolFrom "BTC/USD".data ≠ symbolFromSpec "BTC/USD".data := by
  refine ⟨by decide, by decide, by decide, by decide⟩

/-- C9: the watch-list `["ZM", "BTC"]` (a stock and a crypto) with an empty
ledger is prepared as `[Stock "ZM", Crypto "BTC"]`: the derived `Ord` of
`Symbol` orders every `Stock` before every `Crypto` (variant discriminant
first), so the symbols are NOT processed in lexicographic ticker order —
`"BTC" < "ZM"` lexicographically (`lexLe "ZM" "BTC" = false`), against both
the claim and the code's own comment (src/main.rs lines 238-240). -/
theorem c9_sort_not_ticker_lexicographic :
    prepareSymbols [] ["ZM".data, "BTC".data] =
      [Symbol.Stock "ZM".data, Symbol.Crypto "BTC".data] ∧
    (prepareSymbols [] ["ZM".data, "BTC".data]).map Symbol.ticker =
      ["ZM".data, "BTC".data] ∧
    lexLe "ZM".data "BTC".data = false ∧
    lexLe "BTC".data "ZM".data = true := by
  refine ⟨by decide, by decide, by decide, by decide⟩

/-- A step that returns `AboutToClose` ran the open branch: the pre-state was
ready and the post-state is the pre-state with `open_and_ready` flipped off. -/
theorem step_aboutToClose {s : TickerState} {i : StepInput} {s' : TickerState}
    (h : step s i = .ok (MarketStatus.AboutToClose, s')) :
    s.open_and_ready = true ∧ s' = { s with open_and_ready := false } := by
  by_cases hr : s.open_and_ready = true
  · simp only [step, hr, if_true] at h
    split_ifs at h
    all_goals
      first
        | exact Except.noConfusion h
        | exact ⟨hr, (Prod.ext_iff.mp (Except.ok.inj h)).2.symm⟩
        | exact absurd (Prod.ext_iff.mp (Except.ok.inj h)).1 (by simp)
  · rw [Bool.not_eq_true] at hr
    simp only [step, hr] at h
    split_ifs at h <;> simp_all

/-- A successful step from a non-ready state took the closed branch: it
returns `Open`, installs the freshly fetched clock and sets
`open_and_ready`. -/
theorem step_from_closed {s : TickerState} {i : StepInput} {m : MarketStatus}
    {s' : TickerState} (hr : s.open_and_ready = false)
    (h : step s i = .ok (m, s')) :
    m = MarketStatus.Open ∧ s' = { s with clock := i.fresh, open_and_ready := true } := by
  simp only [step, hr] at h
  split_ifs at h <;> simp_all

/-- A successful step at index `n + 1` came from a successful step at `n`. -/
theorem stepTrace_ok_succ {s0 : TickerState} {inp : ℕ → StepInput} {n : ℕ}
    {x : MarketStatus × TickerState}
    (h : stepTrace s0 inp (n + 1) = .ok x) :
    ∃ m s, stepTrace s0 inp n = .ok (m, s) ∧ step s (inp (n + 1)) = .ok x := by
  rw [stepTrace] at h
  cases hn : stepTrace s0 inp n with
  | error e => rw [hn] at h; exact Except.noConfusion h
  | ok p =>
    obtain ⟨m, s⟩ := p
    rw [hn] at h
    exact ⟨m, s, rfl, h⟩

/-- A successful step at index `n` means every earlier index succeeded. -/
theorem stepTrace_ok_of_le {s0 : TickerState} {inp : ℕ → StepInput} {k n : ℕ}
    (hkn : k ≤ n) :
    ∀ {x}, stepTrace s0 inp n = .ok x → ∃ y, stepTrace s0 inp k = .ok y := by
  induction hkn with
  | refl => exact fun h => ⟨_, h⟩
  | step h ih =>
    intro x hx
    obtain ⟨m, s, hn, -⟩ := stepTrace_ok_succ hx
    exact ih hn

/-- After an `AboutToClose` decision the ticker is not ready. -/
theorem stepTrace_atc_ready_false {s0 : TickerState} {inp : ℕ → StepInput} {n : ℕ}
    {s : TickerState}
    (h : stepTrace s0 inp n = .ok (MarketStatus.AboutToClose, s)) :
    s.open_and_ready = false := by
  cases n with
  | zero =>
    obtain ⟨-, hs⟩ := step_aboutToClose (s := s0) (i := inp 0) h
    rw [hs]
  | succ n =>
    obtain ⟨m, s', -, hstep⟩ := stepTrace_ok_succ h
    obtain ⟨-, hs⟩ := step_aboutToClose hstep
    rw [hs]

/-- A Boolean that is false at `i` and true at `m ≥ i` switches somewhere in
between: there is a `k` in `(i, m]` with `f (k-1) = false` and `f k = true`. -/
theorem bool_switch_exists (f : ℕ → Bool) {i m : ℕ} (him : i ≤ m)
    (hfi : f i = false) (hfm : f m = true) :
    ∃ k, i < k ∧ k ≤ m ∧ f (k - 1) = false ∧ f k = true := by
  induction m with
  | zero =>
    obtain rfl : i = 0 := Nat.le_zero.mp him
    rw [hfi] at hfm
    exact absurd hfm (by simp)
  | succ m ih =>
    have him' : i ≤ m := by
      by_contra hc
      have : i = m + 1 := by omega
      subst this
      rw [hfi] at hfm
      exact absurd hfm (by simp)
    by_cases hm : f m = true
    · obtain ⟨k, hk1, hk2, hk3, hk4⟩ := ih him' hm
      exact ⟨k, hk1, Nat.le_succ_of_le hk2, hk3, hk4⟩
    · refine ⟨m + 1, Nat.lt_succ_of_le him', le_refl _, ?_, hfm⟩
      have : f m = false := by simpa using hm
      simpa using this

/-- C5: the scheduler never returns `AboutToClose` twice without an
intervening closed-branch pass: between two `AboutToClose` decisions of one
run there is a decision whose pre-state is not ready (the closed branch),
which fetches a new `Clock` into the state and returns `Open`. -/
theorem c5_no_double_about_to_close (s0 : TickerState) (inp : ℕ → StepInput)
    (i j : ℕ) (si sj : TickerState) (hij : i < j)
    (hi : stepTrace s0 inp i = .ok (MarketStatus.AboutToClose, si))
    (hj : stepTrace s0 inp j = .ok (MarketStatus.AboutToClose, sj)) :
    ∃ k sk, i < k ∧ k < j ∧
      stepTrace s0 inp k = .ok (MarketStatus.Open, sk) ∧
      sk.open_and_ready = true ∧ sk.clock = (inp k).fresh ∧
      ∃ m' s', stepTrace s0 inp (k - 1) = .ok (m', s') ∧ s'.open_and_ready = false := by
  obtain ⟨jm, rfl⟩ : ∃ jm, j = jm + 1 := ⟨j - 1, by omega⟩
  obtain ⟨mj, spre, hjm, hstepj⟩ := stepTrace_ok_succ hj
  have hpre : spre.open_and_ready = true := (step_aboutToClose hstepj).1
  have hfi :
      (fun n => match stepTrace s0 inp n with
        | .ok (_, s) => s.open_and_ready
        | .error _ => false) i = false := by
    show (match stepTrace s0 inp i with
      | .ok (_, s) => s.open_and_ready
      | .error _ => false) = false
    rw [hi]
    exact stepTrace_atc_ready_false hi
  have hfjm :
      (fun n => match stepTrace s0 inp n with
        | .ok (_, s) => s.open_and_ready
        | .error _ => false) jm = true := by
    show (match stepTrace s0 inp jm with
      | .ok (_, s) => s.open_and_ready
      | .error _ => false) = true
    rw [hjm]
    exact hpre
  obtain ⟨k, hik, hkjm, hkpre, hkpost⟩ :=
    bool_switch_exists
      (fun n => match stepTrace s0 inp n with
        | .ok (_, s) => s.open_and_ready
        | .error _ => false)
      (by omega : i ≤ jm) hfi hfjm
  obtain ⟨⟨mk, sk⟩, hk⟩ := stepTrace_ok_of_le hkjm hjm
  have hsk : sk.open_and_ready = true := by
    rw [hk] at hkpost
    exact hkpost
  obtain ⟨km, rfl⟩ : ∃ km, k = km + 1 := ⟨k - 1, by omega⟩
  obtain ⟨m', s', hkm, hstep'⟩ := stepTrace_ok_succ hk
  have hs' : s'.open_and_ready = false := by
    simp only [Nat.add_sub_cancel] at hkpre
    rw [hkm] at hkpre
    exact hkpre
  obtain ⟨hmk, hskval⟩ := step_from_closed hs' hstep'
  subst hmk
  refine ⟨km + 1, sk, hik, by omega, hk, hsk, by rw [hskval], m', s', ?_, hs'⟩
  simpa using hkm

/-- Concrete run for the C5 witness: `AboutToClose` at step 0 (15 seconds to
close, two ticks = 20), a closed-branch `Open` at step 1, `AboutToClose`
again at step 2. -/
def c5S0 : TickerState := ⟨10, ⟨true, 0, 15⟩, true⟩

def c5Inp : ℕ → StepInput := fun n =>
  if n = 0 then ⟨0, ⟨false, 100, 200⟩, 50⟩
  else if n = 1 then ⟨0, ⟨false, 100, 200⟩, 50⟩
  else ⟨190, ⟨false, 300, 400⟩, 500⟩

/-- C5 witness: the concrete run above, with `AboutToClose` at indices 0 and
2 and the closed-branch `Open` found at index 1. -/
theorem c5_no_double_witness :
    ∃ k sk, 0 < k ∧ k < 2 ∧
      stepTrace c5S0 c5Inp k = .ok (MarketStatus.Open, sk) ∧
      sk.open_and_ready = true ∧ sk.clock = (c5Inp k).fresh ∧
      ∃ m' s', stepTrace c5S0 c5Inp (k - 1) = .ok (m', s') ∧ s'.open_and_ready = false :=
  c5_no_double_about_to_close c5S0 c5Inp 0 2
    ⟨10, ⟨true, 0, 15⟩, false⟩ ⟨10, ⟨false, 100, 200⟩, false⟩
    (by decide) (by rfl) (by rfl)

/-- C6 (amended): while `open_and_ready` holds, the decision is driven by the
remaining time `next_close - now`: if it is non-negative and at most two tick
periods the decision flips `open_and_ready` off and returns `AboutToClose`;
if it exceeds two tick periods the decision returns `Open` and leaves the
state unchanged; but if it is NEGATIVE the decision panics — the
`signed_duration_since(..).to_std().unwrap()` at src/wait.rs lines 45-50
fails on a negative duration — instead of returning `AboutToClose`. -/
theorem c6_open_branch_amended (s : TickerState) (i : StepInput)
    (hr : s.open_and_ready = true) :
    (s.clock.next_close - i.now < 0 → step s i = .error Fatal.timeLeftNegative) ∧
    (0 ≤ s.clock.next_close - i.now → s.clock.next_close - i.now ≤ (s.period : ℤ) * 2 →
      step s i = .ok (MarketStatus.AboutToClose, { s with open_and_ready := false })) ∧
    ((s.period : ℤ) * 2 < s.clock.next_close - i.now →
      step s i = .ok (MarketStatus.Open, s)) := by
  refine ⟨fun h1 => ?_, fun h1 h2 => ?_, fun h1 => ?_⟩
  · simp [step, hr, h1]
  · simp [step, hr, not_lt.mpr h1, h2]
  · have h0 : ¬s.clock.next_close - i.now < 0 := by omega
    simp [step, hr, h0, not_le.mpr h1]

/-- C6 witness: a ready ticker with period 10 and 15 seconds to the close. -/
theorem c6_open_branch_witness :
    (((⟨10, ⟨true, 0, 15⟩, true⟩ : TickerState).clock.next_close - (0 : ℤ) < 0 →
      step ⟨10, ⟨true, 0, 15⟩, true⟩ ⟨0, ⟨false, 0, 0⟩, 0⟩ = .error Fatal.timeLeftNegative) ∧
    (0 ≤ (⟨10, ⟨true, 0, 15⟩, true⟩ : TickerState).clock.next_close - (0 : ℤ) →
      (⟨10, ⟨true, 0, 15⟩, true⟩ : TickerState).clock.next_close - (0 : ℤ) ≤
        (((⟨10, ⟨true, 0, 15⟩, true⟩ : TickerState).period : ℤ)) * 2 →
      step ⟨10, ⟨true, 0, 15⟩, true⟩ ⟨0, ⟨false, 0, 0⟩, 0⟩ =
        .ok (MarketStatus.AboutToClose, ⟨10, ⟨true, 0, 15⟩, false⟩)) ∧
    ((((⟨10, ⟨true, 0, 15⟩, true⟩ : TickerState).period : ℤ)) * 2 <
        (⟨10, ⟨true, 0, 15⟩, true⟩ : TickerState).clock.next_close - (0 : ℤ) →
      step ⟨10, ⟨true, 0, 15⟩, true⟩ ⟨0, ⟨false, 0, 0⟩, 0⟩ =
        .ok (MarketStatus.Open, ⟨10, ⟨true, 0, 15⟩, true⟩))) :=
  c6_open_branch_amended ⟨10, ⟨true, 0, 15⟩, true⟩ ⟨0, ⟨false, 0, 0⟩, 0⟩ rfl

/-- C6 counterexample: a ready ticker whose `next_close` is already one
second in the past. The remaining time (−1) is at most two tick periods, so
the claim demands `AboutToClose` — but the code panics on the negative
duration conversion and returns nothing. -/
theorem c6_counterexample :
    (⟨10, ⟨true, 0, 5⟩, true⟩ : TickerState).open_and_ready = true ∧
    (⟨10, ⟨true, 0, 5⟩, true⟩ : TickerState).clock.next_close - (6 : ℤ) ≤
      (((⟨10, ⟨true, 0, 5⟩, true⟩ : TickerState).period : ℤ)) * 2 ∧
    step ⟨10, ⟨true, 0, 5⟩, true⟩ ⟨6, ⟨false, 0, 0⟩, 0⟩ = .error Fatal.timeLeftNegative := by
  refine ⟨rfl, by decide, by rfl⟩

/-- C7: in the closed branch (`open_and_ready` false) the freshly fetched
clock is asserted closed: if it reports open the operation fails with the
fatal assertion (`assert!(!self.clock.open)`, src/wait.rs line 87) and
returns no `MarketStatus`; if it reports closed the assertion cannot fire,
and the operation proceeds to sleep until the fresh `next_open` (whenever
that instant is not already past, it completes: the state stores the fresh
clock, `open_and_ready` is set, and `Open` is returned). -/
theorem c7_closed_branch_assert (s : TickerState) (i : StepInput)
    (hr : s.open_and_ready = false) :
    (i.fresh.isOpen = true → step s i = .error Fatal.marketStillOpen) ∧
    (i.fresh.isOpen = false → step s i ≠ .error Fatal.marketStillOpen) ∧
    (i.fresh.isOpen = false → i.now2 ≤ i.fresh.next_open →
      step s i = .ok (MarketStatus.Open, { s with clock := i.fresh, open_and_ready := true })) := by
  refine ⟨fun h1 => ?_, fun h1 => ?_, fun h1 h2 => ?_⟩
  · simp [step, hr, h1]
  · simp only [step, hr, h1]
    split_ifs <;> simp_all
  · have h0 : ¬i.fresh.next_open - i.now2 < 0 := by omega
    simp [step, hr, h1, h0]

/-- C7 witness: a non-ready ticker and a fresh clock that reports closed
with its next open in the future. -/
theorem c7_closed_branch_witness :
    ((⟨20, ⟨false, 100, 200⟩, 50⟩ : StepInput).fresh.isOpen = true →
      step ⟨10, ⟨true, 0, 15⟩, false⟩ ⟨20, ⟨false, 100, 200⟩, 50⟩ = .error Fatal.marketStillOpen) ∧
    ((⟨20, ⟨false, 100, 200⟩, 50⟩ : StepInput).fresh.isOpen = false →
      step ⟨10, ⟨true, 0, 15⟩, false⟩ ⟨20, ⟨false, 100, 200⟩, 50⟩ ≠ .error Fatal.marketStillOpen) ∧
    ((⟨20, ⟨false, 100, 200⟩, 50⟩ : StepInput).fresh.isOpen = false →
      (⟨20, ⟨false, 100, 200⟩, 50⟩ : StepInput).now2 ≤ (⟨20, ⟨false, 100, 200⟩, 50⟩ : StepInput).fresh.next_open →
      step ⟨10, ⟨true, 0, 15⟩, false⟩ ⟨20, ⟨false, 100, 200⟩, 50⟩ =
        .ok (MarketStatus.Open, ⟨10, ⟨false, 100, 200⟩, true⟩)) := by
  have h := c7_closed_branch_assert ⟨10, ⟨true, 0, 15⟩, false⟩ ⟨20, ⟨false, 100, 200⟩, 50⟩ rfl
  exact h

end WallStreetWolf
